import Mathlib

/-!
Verification of the asset generators of the `tetris` repository
(`generate_sounds.py` and `generate_icon.py`).

The Python code computes with IEEE doubles; we model floating-point
numbers as real numbers, which is exact for the structural facts proved
here (every constant product that the scripts truncate with `int(...)`
lands far enough from the relevant integer boundaries that the double
rounding agrees with the real-number value).  Python `int()` applied to
a float truncates toward zero, `math.sin` is modelled by `Real.sin`,
and Python lists of floats become `List ℝ`.
-/

namespace Tetris

/-- Model of Python `int(x)` on a real number: truncation toward zero. -/
noncomputable def pyInt (x : ℝ) : ℤ :=
  if 0 ≤ x then ⌊x⌋ else ⌈x⌉

/-- Number of samples requested from the oscillator:
`num_samples = int(duration * sample_rate)` (generate_sounds.py line 9). -/
noncomputable def numSamples (duration : ℝ) (sample_rate : ℕ) : ℕ :=
  (pyInt (duration * sample_rate)).toNat

open Classical in
/-- Embedding of `generate_square_wave` (generate_sounds.py lines 7-16):
for each index `i < int(duration * sample_rate)`, with `t = i / sample_rate`,
the sample is `amplitude` when `sin(2π·frequency·t) ≥ 0` and `-amplitude`
otherwise. -/
noncomputable def generate_square_wave (frequency duration amplitude : ℝ)
    (sample_rate : ℕ) : List ℝ :=
  (List.range (numSamples duration sample_rate)).map (fun (i : ℕ) =>
    if 0 ≤ Real.sin (2 * Real.pi * frequency * ((i : ℝ) / sample_rate))
    then amplitude else -amplitude)

open Classical in
/-- The value of one oscillator sample (the loop body of
`generate_square_wave`, line 14), named so that theorems can speak
about individual samples. -/
noncomputable def squareSample (frequency amplitude : ℝ) (sample_rate : ℕ)
    (i : ℕ) : ℝ :=
  if 0 ≤ Real.sin (2 * Real.pi * frequency * ((i : ℝ) / sample_rate))
  then amplitude else -amplitude

/-- Python `min(samples)` for a non-empty list (the `[]` case is junk:
CPython raises there, and no theorem below uses it). -/
noncomputable def listMin : List ℝ → ℝ
  | [] => 0
  | x :: xs => xs.foldl min x

/-- Python `max(samples)` for a non-empty list (the `[]` case is junk). -/
noncomputable def listMax : List ℝ → ℝ
  | [] => 0
  | x :: xs => xs.foldl max x

/-- Peak amplitude `max(abs(min(samples)), abs(max(samples)))`
(generate_sounds.py lines 123 and 360). -/
noncomputable def peak (samples : List ℝ) : ℝ :=
  max |listMin samples| |listMax samples|

open Classical in
/-- Embedding of the normalization step shared by `create_tetris_sound`
(lines 122-126, headroom 0.9) and `create_background_music`
(lines 359-363, headroom 0.95): if the peak is positive every sample is
multiplied by `headroom / peak`, otherwise the buffer is returned
unchanged. -/
noncomputable def normalize (headroom : ℝ) (samples : List ℝ) : List ℝ :=
  if 0 < peak samples then
    samples.map (fun s => s * (headroom / peak samples))
  else samples

/-- The 16-bit conversion of `save_wave_file` (line 29):
`sample = int(sample * 32767)`, i.e. truncation toward zero. -/
noncomputable def toInt16 (s : ℝ) : ℤ :=
  pyInt (s * 32767)

open Classical in
/-- Embedding of the encoding loop of `save_wave_file` (lines 26-32):
`struct.pack('h', v)` raises `struct.error` when `v` is outside the
signed 16-bit range, which we model by `none`; otherwise the frame data
consists of the converted integers. -/
noncomputable def encodeSamples (samples : List ℝ) : Option (List ℤ) :=
  if ∀ s ∈ samples, -32768 ≤ toInt16 s ∧ toInt16 s ≤ 32767 then
    some (samples.map toInt16)
  else none

/-! ### Envelope shaping

`create_background_music` applies a linear attack and release in place
(generate_sounds.py lines 325-349):

    for i in range(min(attack_samples, len(note_samples))):
        note_samples[i] *= (i / attack_samples)
    for i in range(min(release_samples, len(note_samples))):
        note_samples[-(i+1)] *= (i / release_samples)

We embed the two destructive loops as index-wise maps; the negative
index `-(i+1)` is the position `len - 1 - i`, so position `j` is scaled
by `(len - 1 - j) / release` exactly when `len - 1 - j < min(release, len)`.
-/

noncomputable def applyAttack (attack : ℕ) (xs : List ℝ) : List ℝ :=
  List.zipWith (fun (i : ℕ) x =>
      if i < min attack xs.length then x * ((i : ℝ) / attack) else x)
    (List.range xs.length) xs

noncomputable def applyRelease (release : ℕ) (xs : List ℝ) : List ℝ :=
  List.zipWith (fun (i : ℕ) x =>
      if xs.length - 1 - i < min release xs.length then
        x * (((xs.length - 1 - i : ℕ) : ℝ) / release)
      else x)
    (List.range xs.length) xs

/-- One note of the background track with its envelope applied. -/
noncomputable def envelope (attack release : ℕ) (xs : List ℝ) : List ℝ :=
  applyRelease release (applyAttack attack xs)

/-! ### The seven sound assets

The Python loops run over literal lists of frequencies/chords, so they
are unrolled here.  `generate_square_wave` is always called without a
`sample_rate` argument by these effects, hence at its default 44100
(generate_sounds.py line 7); `create_drop_sound` and
`create_clear_sound` synthesize their sweeps inline at 32768
(lines 56 and 72). -/

/-- Embedding of `create_move_sound` (lines 34-40). -/
noncomputable def create_move_sound : List ℝ :=
  generate_square_wave 440 0.05 0.3 44100 ++
    generate_square_wave 392 0.05 0.3 44100 ++
    generate_square_wave 349 0.05 0.3 44100

/-- Embedding of `create_rotate_sound` (lines 42-48). -/
noncomputable def create_rotate_sound : List ℝ :=
  generate_square_wave 440 0.03 0.3 44100 ++
    generate_square_wave 554 0.03 0.3 44100 ++
    generate_square_wave 659 0.03 0.3 44100 ++
    generate_square_wave 880 0.03 0.3 44100

open Classical in
/-- Embedding of `create_drop_sound` (lines 50-65): a square sweep from
880 Hz toward 0 Hz at 32768 Hz with a linear decay `1 - i / num_samples`. -/
noncomputable def create_drop_sound : List ℝ :=
  (List.range (numSamples 0.1 32768)).map (fun (i : ℕ) =>
    (if 0 ≤ Real.sin (2 * Real.pi * (880 * (1 - ((i : ℝ) / 32768) / 0.1)) *
        ((i : ℝ) / 32768))
      then (0.4 : ℝ) else -0.4) *
      (1 - (i : ℝ) / (numSamples 0.1 32768 : ℕ)))

open Classical in
/-- Embedding of `create_clear_sound` (lines 67-79): a square sweep from
440 Hz to 1320 Hz at 32768 Hz. -/
noncomputable def create_clear_sound : List ℝ :=
  (List.range (numSamples 0.2 32768)).map (fun (i : ℕ) =>
    if 0 ≤ Real.sin (2 * Real.pi * (440 + 880 * ((i : ℝ) / 32768) / 0.2) *
        ((i : ℝ) / 32768))
    then (0.4 : ℝ) else -0.4)

/-- Embedding of `create_game_over_sound` (lines 81-88). -/
noncomputable def create_game_over_sound : List ℝ :=
  generate_square_wave 880 0.1 0.4 44100 ++
    generate_square_wave 659 0.1 0.4 44100 ++
    generate_square_wave 554 0.1 0.4 44100 ++
    generate_square_wave 440 0.1 0.4 44100 ++
    generate_square_wave 330 0.1 0.4 44100

/-- The arpeggio part of `create_tetris_sound` (lines 106-120): chords
0-2 of the progression are played note by note, each for 0.06 s at
volume 0.3. -/
noncomputable def tetrisArpeggio : List ℝ :=
  generate_square_wave 523.25 0.06 0.3 44100 ++
    generate_square_wave 659.25 0.06 0.3 44100 ++
    generate_square_wave 783.99 0.06 0.3 44100 ++
    generate_square_wave 698.46 0.06 0.3 44100 ++
    generate_square_wave 880.00 0.06 0.3 44100 ++
    generate_square_wave 1046.50 0.06 0.3 44100 ++
    generate_square_wave 783.99 0.06 0.3 44100 ++
    generate_square_wave 987.77 0.06 0.3 44100 ++
    generate_square_wave 1174.66 0.06 0.3 44100

/-- The final chord of `create_tetris_sound` (lines 108-116): the three
voices of the last C-major chord, each generated for 0.12 s at volume
`0.4 / 3` (`volumes[chord_idx] / len(chord)`), summed pairwise with
`[sum(x) for x in zip(...)]`. -/
noncomputable def tetrisChord : List ℝ :=
  List.zipWith (· + ·)
    (List.zipWith (· + ·)
      (generate_square_wave 1046.50 0.12 (0.4 / 3) 44100)
      (generate_square_wave 1318.51 0.12 (0.4 / 3) 44100))
    (generate_square_wave 1567.98 0.12 (0.4 / 3) 44100)

/-- Embedding of `create_tetris_sound` (lines 90-128): the arpeggio
followed by the final chord, normalized to a 0.9 peak. -/
noncomputable def create_tetris_sound : List ℝ :=
  normalize 0.9 (tetrisArpeggio ++ tetrisChord)

/-! ### Background music (`create_background_music`, lines 130-366) -/

/-- Note frequency from semitones above A4 (lines 137-138):
`440 * 2 ** (semitones_from_a4 / 12.0)`. -/
noncomputable def note_freq (semitones_from_a4 : ℤ) : ℝ :=
  440 * (2 : ℝ) ^ ((semitones_from_a4 : ℝ) / 12)

/-- Duration of a quarter note: `60.0 / tempo` with `tempo = 192`
(lines 133-134). -/
noncomputable def quarter_duration : ℝ := 60 / 192

/-- The melody note list (lines 141-237), as pairs
(frequency, duration in seconds). -/
noncomputable def bgMelody : List (ℝ × ℝ) :=
  [(note_freq 2, quarter_duration * 0.75), (note_freq 4, quarter_duration * 0.25),
   (note_freq 5, quarter_duration * 0.5), (note_freq 7, quarter_duration * 0.5),
   (note_freq 9, quarter_duration * 0.5), (note_freq 7, quarter_duration * 0.5),
   (note_freq 5, quarter_duration * 0.75), (note_freq 7, quarter_duration * 0.25),
   (note_freq 9, quarter_duration * 0.5), (note_freq 11, quarter_duration * 0.5),
   (note_freq 12, quarter_duration * 0.5), (note_freq 11, quarter_duration * 0.5),
   (note_freq 9, quarter_duration * 0.75), (note_freq 7, quarter_duration * 0.25),
   (note_freq 5, quarter_duration * 0.5), (note_freq 4, quarter_duration * 0.5),
   (note_freq 2, quarter_duration * 0.5), (note_freq 0, quarter_duration * 0.5),
   (note_freq 2, quarter_duration * 0.75), (note_freq 4, quarter_duration * 0.25),
   (note_freq 5, quarter_duration * 0.5), (note_freq 7, quarter_duration * 0.5),
   (note_freq 9, quarter_duration * 0.5), (note_freq 7, quarter_duration * 0.5),
   (note_freq 5, quarter_duration * 0.75), (note_freq 7, quarter_duration * 0.25),
   (note_freq 9, quarter_duration * 0.5), (note_freq 11, quarter_duration * 0.5),
   (note_freq 12, quarter_duration * 0.5), (note_freq 11, quarter_duration * 0.5),
   (note_freq 9, quarter_duration), (note_freq 14, quarter_duration),
   (note_freq 14, quarter_duration),
   (note_freq 14, quarter_duration), (note_freq 12, quarter_duration * 0.5),
   (note_freq 11, quarter_duration * 0.5), (note_freq 9, quarter_duration),
   (note_freq 7, quarter_duration), (note_freq 14, quarter_duration),
   (note_freq 14, quarter_duration),
   (note_freq 14, quarter_duration), (note_freq 12, quarter_duration * 0.5),
   (note_freq 11, quarter_duration * 0.5), (note_freq 9, quarter_duration),
   (note_freq 7, quarter_duration), (note_freq 9, quarter_duration),
   (note_freq 11, quarter_duration),
   (note_freq 12, quarter_duration), (note_freq 14, quarter_duration),
   (note_freq 16, quarter_duration),
   (note_freq 14, quarter_duration * 1.5), (note_freq 12, quarter_duration * 0.5),
   (note_freq 11, quarter_duration),
   (note_freq 9, quarter_duration), (note_freq 11, quarter_duration),
   (note_freq 12, quarter_duration),
   (note_freq 14, quarter_duration), (note_freq 16, quarter_duration),
   (note_freq 17, quarter_duration),
   (note_freq 16, quarter_duration * 1.5), (note_freq 14, quarter_duration * 0.5),
   (note_freq 12, quarter_duration),
   (note_freq 14, quarter_duration * 2), (note_freq 14, quarter_duration)]

/-- The bass note list (lines 240-320): sixteen measures of three
quarter notes each. -/
noncomputable def bgBass : List (ℝ × ℝ) :=
  [(note_freq (-8), quarter_duration), (note_freq (-8), quarter_duration),
   (note_freq (-8), quarter_duration),
   (note_freq (-5), quarter_duration), (note_freq (-5), quarter_duration),
   (note_freq (-5), quarter_duration),
   (note_freq (-7), quarter_duration), (note_freq (-7), quarter_duration),
   (note_freq (-7), quarter_duration),
   (note_freq (-8), quarter_duration), (note_freq (-8), quarter_duration),
   (note_freq (-8), quarter_duration),
   (note_freq (-5), quarter_duration), (note_freq (-5), quarter_duration),
   (note_freq (-5), quarter_duration),
   (note_freq (-8), quarter_duration), (note_freq (-8), quarter_duration),
   (note_freq (-8), quarter_duration),
   (note_freq (-3), quarter_duration), (note_freq (-3), quarter_duration),
   (note_freq (-3), quarter_duration),
   (note_freq (-8), quarter_duration), (note_freq (-8), quarter_duration),
   (note_freq (-8), quarter_duration),
   (note_freq (-3), quarter_duration), (note_freq (-3), quarter_duration),
   (note_freq (-3), quarter_duration),
   (note_freq (-8), quarter_duration), (note_freq (-8), quarter_duration),
   (note_freq (-8), quarter_duration),
   (note_freq (-5), quarter_duration), (note_freq (-5), quarter_duration),
   (note_freq (-5), quarter_duration),
   (note_freq (-8), quarter_duration), (note_freq (-8), quarter_duration),
   (note_freq (-8), quarter_duration),
   (note_freq (-7), quarter_duration), (note_freq (-7), quarter_duration),
   (note_freq (-7), quarter_duration),
   (note_freq (-8), quarter_duration), (note_freq (-8), quarter_duration),
   (note_freq (-8), quarter_duration),
   (note_freq (-5), quarter_duration), (note_freq (-5), quarter_duration),
   (note_freq (-5), quarter_duration),
   (note_freq (-8), quarter_duration), (note_freq (-8), quarter_duration),
   (note_freq (-8), quarter_duration)]

/-- Melody voice (lines 326-336): each note is a square wave at volume
0.3 and 44100 Hz with a 20 ms attack (`int(0.02 * 44100)` samples) and
a 30 ms release (`int(0.03 * 44100)` samples), all concatenated. -/
noncomputable def bgMelodyLine : List ℝ :=
  (bgMelody.map (fun p =>
    envelope (numSamples 0.02 44100) (numSamples 0.03 44100)
      (generate_square_wave p.1 p.2 0.3 44100))).flatten

/-- Bass voice (lines 339-349): volume 0.2, 30 ms attack, 40 ms release. -/
noncomputable def bgBassLine : List ℝ :=
  (bgBass.map (fun p =>
    envelope (numSamples 0.03 44100) (numSamples 0.04 44100)
      (generate_square_wave p.1 p.2 0.2 44100))).flatten

/-- Both voices padded with zeros to the common length (lines 352-354). -/
noncomputable def bgMaxLength : ℕ := max bgMelodyLine.length bgBassLine.length

noncomputable def bgPaddedMelody : List ℝ :=
  bgMelodyLine ++ List.replicate (bgMaxLength - bgMelodyLine.length) 0

noncomputable def bgPaddedBass : List ℝ :=
  bgBassLine ++ List.replicate (bgMaxLength - bgBassLine.length) 0

/-- The mix `samples[i] + bass_samples[i]` (line 357). -/
noncomputable def bgMixed : List ℝ :=
  List.zipWith (· + ·) bgPaddedMelody bgPaddedBass

/-- Embedding of `create_background_music` (lines 130-366): normalize
the mix to a 0.95 peak (lines 359-363) and repeat it twice (line 366). -/
noncomputable def create_background_music : List ℝ :=
  normalize 0.95 bgMixed ++ normalize 0.95 bgMixed

/-! ### Sample-rate wiring (`save_wave_file` and `main`) -/

/-- The seven WAV assets written by `main` (lines 374-380). -/
inductive SoundAsset
  | move | rotate | drop | clear | tetris | gameOver | background
  deriving DecidableEq

/-- Sample rate declared in the WAV header of each file: `main` never passes
a rate, so every call uses the `save_wave_file` default of 32768
(line 18), which `setframerate` writes into the header (line 23). -/
def headerSampleRate : SoundAsset → ℕ := fun _ => 32768

/-- Sample rate at which the samples of each asset were synthesized:
move/rotate/tetris/game_over call `generate_square_wave` without a
rate, i.e. at its default 44100 (line 7); the background track fixes
44100 explicitly (line 132); only drop and clear synthesize at 32768
(lines 56 and 72). -/
def synthesisSampleRate : SoundAsset → ℕ
  | .drop => 32768
  | .clear => 32768
  | _ => 44100

/-! ### Icon rasterizer (`generate_icon.py`)

`create_tetris_icon` issues a sequence of PIL drawing commands on the
black canvas.  We embed the command sequence itself: each block produces
one filled rectangle followed by four width-2 line strokes, in source
order. -/

/-- An RGB color; channels are Python integers. -/
abbrev RGB := ℤ × ℤ × ℤ

/-- One PIL drawing command issued by `create_tetris_icon`. -/
inductive DrawOp
  | rect (left top right bottom : ℕ) (fill : RGB)
  | line (x0 y0 x1 y1 : ℕ) (color : RGB) (width : ℕ)
  deriving DecidableEq

/-- The color table (generate_icon.py lines 14-19). -/
def iconColors : List RGB :=
  [(0, 240, 240), (240, 160, 0), (0, 0, 240), (240, 240, 0)]

/-- The block layout (lines 22-29): top bar, stem, base decoration. -/
def iconBlocks : List (List (ℕ × ℕ)) :=
  [[(0, 0), (1, 0), (2, 0), (3, 0)],
   [(1, 1), (1, 2), (1, 3)],
   [(0, 3), (2, 3)]]

/-- Drawing commands for one block (lines 34-53): the filled rectangle,
the two highlight strokes (`min(c + 40, 255)` per channel, top and left
edges, width 2) and the two shadow strokes (`max(c - 40, 0)` per
channel, bottom and right edges, width 2). -/
def blockOps (size : ℕ) (xy : ℕ × ℕ) (color : RGB) : List DrawOp :=
  let block_size := size / 4
  let padding := block_size / 8
  let left := xy.1 * block_size + padding
  let top := xy.2 * block_size + padding
  let right := (xy.1 + 1) * block_size - padding
  let bottom := (xy.2 + 1) * block_size - padding
  [DrawOp.rect left top right bottom color,
   DrawOp.line left top right top
     (min (color.1 + 40) 255, min (color.2.1 + 40) 255, min (color.2.2 + 40) 255) 2,
   DrawOp.line left top left bottom
     (min (color.1 + 40) 255, min (color.2.1 + 40) 255, min (color.2.2 + 40) 255) 2,
   DrawOp.line left bottom right bottom
     (max (color.1 - 40) 0, max (color.2.1 - 40) 0, max (color.2.2 - 40) 0) 2,
   DrawOp.line right top right bottom
     (max (color.1 - 40) 0, max (color.2.1 - 40) 0, max (color.2.2 - 40) 0) 2]

/-- Embedding of `create_tetris_icon` (lines 4-55): for each block set
(with `color = colors[color_idx % len(colors)]`, line 33) and each of
its cells, emit the commands of that block in order. -/
def create_tetris_icon (size : ℕ) : List DrawOp :=
  (iconBlocks.enum.map (fun p =>
    (p.2.map (fun xy =>
      blockOps size xy (iconColors.getD (p.1 % iconColors.length) (0, 0, 0)))).flatten)).flatten

/-! Spec-side rendition of the icon contract (spec section 4.6), to be
compared with the embedding above. -/

/-- Channel-wise `+40` clamped to 255, as the spec words the highlight. -/
def highlightColor (c : RGB) : RGB :=
  (min (c.1 + 40) 255, min (c.2.1 + 40) 255, min (c.2.2 + 40) 255)

/-- Channel-wise `-40` clamped to 0, as the spec words the shadow. -/
def shadowColor (c : RGB) : RGB :=
  (max (c.1 - 40) 0, max (c.2.1 - 40) 0, max (c.2.2 - 40) 0)

/-- The pre-defined block-color assignments: the flat list of drawn
cells of the 4×4 grid with their colors (cyan top bar, orange stem,
blue base). -/
def specAssignments : List (ℕ × ℕ × RGB) :=
  [(0, 0, (0, 240, 240)), (1, 0, (0, 240, 240)),
   (2, 0, (0, 240, 240)), (3, 0, (0, 240, 240)),
   (1, 1, (240, 160, 0)), (1, 2, (240, 160, 0)), (1, 3, (240, 160, 0)),
   (0, 3, (0, 0, 240)), (2, 3, (0, 0, 240))]

/-- Modelled from the spec (section 4.6): for canvas size N, the 4×4
grid has block size `N/4` (integer division) and per-block padding
`block_size/8`; each drawn block fills its padded rectangle with the
block color, then strokes a 2-pixel highlight along the top and left
edges and a 2-pixel shadow along the bottom and right edges. -/
def specBlockOps (size x y : ℕ) (c : RGB) : List DrawOp :=
  let blockSize := size / 4
  let padding := blockSize / 8
  let left := x * blockSize + padding
  let top := y * blockSize + padding
  let right := (x + 1) * blockSize - padding
  let bottom := (y + 1) * blockSize - padding
  [DrawOp.rect left top right bottom c,
   DrawOp.line left top right top (highlightColor c) 2,
   DrawOp.line left top left bottom (highlightColor c) 2,
   DrawOp.line left bottom right bottom (shadowColor c) 2,
   DrawOp.line right top right bottom (shadowColor c) 2]

/-- Modelled from the spec (section 4.6): the icon is the drawn blocks
in order, one command group per block-color assignment. -/
def specTetrisIcon (size : ℕ) : List DrawOp :=
  (specAssignments.map (fun b => specBlockOps size b.1 b.2.1 b.2.2)).flatten

/-! ### Basic facts about the oscillator -/

theorem length_generate_square_wave (f d a : ℝ) (sr : ℕ) :
    (generate_square_wave f d a sr).length = numSamples d sr := by
  simp [generate_square_wave, numSamples]

theorem getElem_generate_square_wave (f d a : ℝ) (sr : ℕ) (i : ℕ)
    (h : i < (generate_square_wave f d a sr).length) :
    (generate_square_wave f d a sr)[i] =
      if 0 ≤ Real.sin (2 * Real.pi * f * ((i : ℝ) / sr)) then a else -a := by
  simp only [generate_square_wave, List.getElem_map, List.getElem_range]

theorem mem_generate_square_wave {f d a : ℝ} {sr : ℕ} {s : ℝ}
    (h : s ∈ generate_square_wave f d a sr) : s = a ∨ s = -a := by
  rcases List.mem_map.mp h with ⟨i, _, hi⟩
  by_cases hs : 0 ≤ Real.sin (2 * Real.pi * f * ((i : ℝ) / sr))
  · left; rw [← hi, if_pos hs]
  · right; rw [← hi, if_neg hs]

/-! ### Facts about `listMin`, `listMax`, `peak` and `normalize` -/

theorem foldl_min_le_init (l : List ℝ) (init : ℝ) : l.foldl min init ≤ init := by
  induction l generalizing init with
  | nil => exact le_refl init
  | cons x xs ih => exact le_trans (ih (min init x)) (min_le_left _ _)

theorem foldl_min_le_of_mem {l : List ℝ} {x : ℝ} (init : ℝ) (h : x ∈ l) :
    l.foldl min init ≤ x := by
  induction l generalizing init with
  | nil => cases h
  | cons y ys ih =>
    rcases List.mem_cons.mp h with rfl | hmem
    · exact le_trans (foldl_min_le_init ys (min init x)) (min_le_right _ _)
    · exact ih (min init y) hmem

theorem init_le_foldl_max (l : List ℝ) (init : ℝ) : init ≤ l.foldl max init := by
  induction l generalizing init with
  | nil => exact le_refl init
  | cons x xs ih => exact le_trans (le_max_left _ _) (ih (max init x))

theorem le_foldl_max_of_mem {l : List ℝ} {x : ℝ} (init : ℝ) (h : x ∈ l) :
    x ≤ l.foldl max init := by
  induction l generalizing init with
  | nil => cases h
  | cons y ys ih =>
    rcases List.mem_cons.mp h with rfl | hmem
    · exact le_trans (le_max_right _ _) (init_le_foldl_max ys (max init x))
    · exact ih (max init y) hmem

theorem listMin_le_of_mem {l : List ℝ} {x : ℝ} (h : x ∈ l) : listMin l ≤ x := by
  cases l with
  | nil => cases h
  | cons y ys =>
    rcases List.mem_cons.mp h with rfl | hmem
    · exact foldl_min_le_init ys x
    · exact foldl_min_le_of_mem y hmem

theorem le_listMax_of_mem {l : List ℝ} {x : ℝ} (h : x ∈ l) : x ≤ listMax l := by
  cases l with
  | nil => cases h
  | cons y ys =>
    rcases List.mem_cons.mp h with rfl | hmem
    · exact init_le_foldl_max ys x
    · exact le_foldl_max_of_mem y hmem

theorem abs_le_peak_of_mem {l : List ℝ} {x : ℝ} (h : x ∈ l) : |x| ≤ peak l := by
  rw [abs_le]
  constructor
  · calc -peak l ≤ -|listMin l| := by
          simp [peak]
        _ ≤ listMin l := neg_abs_le _
        _ ≤ x := listMin_le_of_mem h
  · calc x ≤ listMax l := le_listMax_of_mem h
        _ ≤ |listMax l| := le_abs_self _
        _ ≤ peak l := le_max_right _ _

theorem peak_nonneg (l : List ℝ) : 0 ≤ peak l :=
  le_trans (abs_nonneg _) (le_max_left _ _)

theorem foldl_min_map_mul {c : ℝ} (hc : 0 ≤ c) (l : List ℝ) (init : ℝ) :
    (l.map (fun s => s * c)).foldl min (init * c) = l.foldl min init * c := by
  induction l generalizing init with
  | nil => rfl
  | cons x xs ih =>
    simp only [List.map_cons, List.foldl_cons]
    rw [← min_mul_of_nonneg _ _ hc, ih]

theorem foldl_max_map_mul {c : ℝ} (hc : 0 ≤ c) (l : List ℝ) (init : ℝ) :
    (l.map (fun s => s * c)).foldl max (init * c) = l.foldl max init * c := by
  induction l generalizing init with
  | nil => rfl
  | cons x xs ih =>
    simp only [List.map_cons, List.foldl_cons]
    rw [← max_mul_of_nonneg _ _ hc, ih]

theorem listMin_map_mul {c : ℝ} (hc : 0 ≤ c) (l : List ℝ) :
    listMin (l.map (fun s => s * c)) = listMin l * c := by
  cases l with
  | nil => simp [listMin]
  | cons x xs => exact foldl_min_map_mul hc xs x

theorem listMax_map_mul {c : ℝ} (hc : 0 ≤ c) (l : List ℝ) :
    listMax (l.map (fun s => s * c)) = listMax l * c := by
  cases l with
  | nil => simp [listMax]
  | cons x xs => exact foldl_max_map_mul hc xs x

theorem peak_map_mul {c : ℝ} (hc : 0 ≤ c) (l : List ℝ) :
    peak (l.map (fun s => s * c)) = peak l * c := by
  simp only [peak, listMin_map_mul hc, listMax_map_mul hc, abs_mul,
    abs_of_nonneg hc]
  rw [← max_mul_of_nonneg _ _ hc]

theorem length_normalize (h : ℝ) (l : List ℝ) :
    (normalize h l).length = l.length := by
  unfold normalize
  split <;> simp

theorem normalize_of_peak_pos {h : ℝ} {l : List ℝ} (hp : 0 < peak l) :
    normalize h l = l.map (fun s => s * (h / peak l)) := by
  rw [normalize, if_pos hp]

theorem normalize_of_silent {h : ℝ} {l : List ℝ} (hp : ¬0 < peak l) :
    normalize h l = l := by
  rw [normalize, if_neg hp]

theorem peak_normalize {h : ℝ} {l : List ℝ} (hh : 0 ≤ h) (hp : 0 < peak l) :
    peak (normalize h l) = h := by
  rw [normalize_of_peak_pos hp, peak_map_mul (by positivity)]
  field_simp

theorem abs_le_of_mem_normalize {h : ℝ} {l : List ℝ} {x : ℝ} (hh : 0 ≤ h)
    (hx : x ∈ normalize h l) : |x| ≤ h := by
  by_cases hp : 0 < peak l
  · rw [normalize_of_peak_pos hp] at hx
    rcases List.mem_map.mp hx with ⟨y, hy, rfl⟩
    have hc : 0 ≤ h / peak l := div_nonneg hh hp.le
    rw [abs_mul, abs_of_nonneg hc]
    calc |y| * (h / peak l) ≤ peak l * (h / peak l) :=
          mul_le_mul_of_nonneg_right (abs_le_peak_of_mem hy) hc
      _ = h := by field_simp
  · rw [normalize_of_silent hp] at hx
    have h0 : peak l = 0 := le_antisymm (not_lt.mp hp) (peak_nonneg l)
    calc |x| ≤ peak l := abs_le_peak_of_mem hx
      _ = 0 := h0
      _ ≤ h := hh


theorem length_applyAttack (a : ℕ) (xs : List ℝ) :
    (applyAttack a xs).length = xs.length := by
  simp [applyAttack]

theorem length_applyRelease (r : ℕ) (xs : List ℝ) :
    (applyRelease r xs).length = xs.length := by
  simp [applyRelease]

theorem length_envelope (a r : ℕ) (xs : List ℝ) :
    (envelope a r xs).length = xs.length := by
  rw [envelope, length_applyRelease, length_applyAttack]

theorem getD_applyAttack (a : ℕ) (xs : List ℝ) (i : ℕ) (h : i < xs.length) :
    (applyAttack a xs).getD i 0 =
      if i < min a xs.length then xs.getD i 0 * ((i : ℝ) / a)
      else xs.getD i 0 := by
  have hA : i < (applyAttack a xs).length := by rwa [length_applyAttack]
  rw [List.getD_eq_getElem _ _ hA, List.getD_eq_getElem _ _ h]
  simp only [applyAttack, List.getElem_zipWith, List.getElem_range]

theorem getD_applyRelease (r : ℕ) (xs : List ℝ) (i : ℕ) (h : i < xs.length) :
    (applyRelease r xs).getD i 0 =
      if xs.length - 1 - i < min r xs.length then
        xs.getD i 0 * (((xs.length - 1 - i : ℕ) : ℝ) / r)
      else xs.getD i 0 := by
  have hR : i < (applyRelease r xs).length := by rwa [length_applyRelease]
  rw [List.getD_eq_getElem _ _ hR, List.getD_eq_getElem _ _ h]
  simp only [applyRelease, List.getElem_zipWith, List.getElem_range]

theorem getD_envelope (a r : ℕ) (xs : List ℝ) (i : ℕ) (h : i < xs.length) :
    (envelope a r xs).getD i 0 =
      xs.getD i 0 * (if i < min a xs.length then (i : ℝ) / a else 1) *
        (if xs.length - 1 - i < min r xs.length then
          ((xs.length - 1 - i : ℕ) : ℝ) / r else 1) := by
  have hA : i < (applyAttack a xs).length := by rwa [length_applyAttack]
  rw [envelope, getD_applyRelease r (applyAttack a xs) i hA]
  simp only [length_applyAttack]
  rw [getD_applyAttack a xs i h]
  by_cases h1 : i < min a xs.length <;>
    by_cases h2 : xs.length - 1 - i < min r xs.length <;>
      simp [h1, h2, mul_assoc]

/-! ### Truncation facts about `pyInt` -/

theorem pyInt_trunc (x : ℝ) :
    |(pyInt x : ℝ) - x| < 1 ∧ |(pyInt x : ℝ)| ≤ |x| := by
  unfold pyInt
  by_cases hx : 0 ≤ x
  · rw [if_pos hx]
    have h1 := Int.floor_le x
    have h2 := Int.lt_floor_add_one x
    have h0 : (0 : ℝ) ≤ (⌊x⌋ : ℝ) := by
      exact_mod_cast Int.le_floor.mpr (by exact_mod_cast hx)
    constructor
    · rw [abs_lt]; constructor <;> linarith
    · rw [abs_of_nonneg h0, abs_of_nonneg hx]; exact h1
  · rw [if_neg hx]
    push_neg at hx
    have h1 := Int.le_ceil x
    have h2 := Int.ceil_lt_add_one x
    have h0 : (⌈x⌉ : ℝ) ≤ 0 := by
      exact_mod_cast Int.ceil_le.mpr (le_of_lt (by exact_mod_cast hx))
    constructor
    · rw [abs_lt]; constructor <;> linarith
    · rw [abs_of_nonpos h0, abs_of_nonpos (le_of_lt hx)]; linarith

theorem toInt16_bounds {s : ℝ} (h1 : -1 ≤ s) (h2 : s ≤ 1) :
    -32767 ≤ toInt16 s ∧ toInt16 s ≤ 32767 := by
  unfold toInt16 pyInt
  by_cases hx : 0 ≤ s * 32767
  · rw [if_pos hx]
    constructor
    · have : (0 : ℤ) ≤ ⌊s * 32767⌋ := Int.le_floor.mpr (by exact_mod_cast hx)
      omega
    · have hone : s * 32767 ≤ ((32767 : ℤ) : ℝ) := by push_cast; nlinarith
      have := Int.floor_le_floor hone
      rwa [Int.floor_intCast] at this
  · rw [if_neg hx]
    push_neg at hx
    constructor
    · have hlow : ((-32767 : ℤ) : ℝ) ≤ s * 32767 := by push_cast; nlinarith
      have := Int.ceil_le_ceil hlow
      rwa [Int.ceil_intCast] at this
    · have : ⌈s * 32767⌉ ≤ (0 : ℤ) := Int.ceil_le.mpr (by exact_mod_cast le_of_lt hx)
      omega

/-! ### Further helpers -/

theorem numSamples_eq (d : ℝ) (sr n : ℕ) (h1 : 0 ≤ d)
    (h2 : d * (sr : ℝ) = (n : ℝ)) : numSamples d sr = n := by
  rw [numSamples, pyInt,
    if_pos (mul_nonneg h1 (Nat.cast_nonneg sr)), h2, Int.floor_natCast]
  simp

theorem getElem_square_wave_eq_sample (f d a : ℝ) (sr : ℕ) (i : ℕ)
    (h : i < (generate_square_wave f d a sr).length) :
    (generate_square_wave f d a sr)[i] = squareSample f a sr i :=
  getElem_generate_square_wave f d a sr i h

theorem squareSample_zero (f a : ℝ) (sr : ℕ) : squareSample f a sr 0 = a := by
  rw [squareSample]
  simp

theorem getElem_zero_square_wave (f d a : ℝ) (sr : ℕ)
    (h : 0 < (generate_square_wave f d a sr).length) :
    (generate_square_wave f d a sr)[0] = a := by
  rw [getElem_square_wave_eq_sample f d a sr 0 h, squareSample_zero]

/-! ## Claims -/

/-- C8: the envelope of the background track scales the first
`min(attack, len)` samples by `i/attack` and the last
`min(release, len)` samples by `i/release` in reverse, touching no index
outside the buffer (the length is preserved and every in-range index
follows the clamped formula); for attack > 0 the first sample is 0, the
sample at `attack-1` (when inside the buffer and clear of the release
window) is `(attack-1)/attack` of the original — within `|x|/attack` of
it — and symmetrically the last sample is 0 for release > 0 while the
sample at `len - release` is `(release-1)/release` of the original. -/
theorem envelope_spec (a r : ℕ) (xs : List ℝ) :
    (envelope a r xs).length = xs.length ∧
      (∀ i, i < xs.length →
        (envelope a r xs).getD i 0 =
          xs.getD i 0 * (if i < min a xs.length then (i : ℝ) / a else 1) *
            (if xs.length - 1 - i < min r xs.length then
              ((xs.length - 1 - i : ℕ) : ℝ) / r else 1)) ∧
      (0 < a → 0 < xs.length → (envelope a r xs).getD 0 0 = 0) ∧
      (0 < a → a ≤ xs.length → min r xs.length ≤ xs.length - a →
        (envelope a r xs).getD (a - 1) 0 =
            xs.getD (a - 1) 0 * (((a - 1 : ℕ) : ℝ) / a) ∧
          |(envelope a r xs).getD (a - 1) 0 - xs.getD (a - 1) 0| ≤
            |xs.getD (a - 1) 0| / a) ∧
      (0 < r → 0 < xs.length → (envelope a r xs).getD (xs.length - 1) 0 = 0) ∧
      (0 < r → r ≤ xs.length → min a xs.length ≤ xs.length - r →
        (envelope a r xs).getD (xs.length - r) 0 =
          xs.getD (xs.length - r) 0 * (((r - 1 : ℕ) : ℝ) / r)) := by
  refine ⟨length_envelope a r xs, getD_envelope a r xs, ?_, ?_, ?_, ?_⟩
  · intro ha hl
    rw [getD_envelope a r xs 0 hl, if_pos (by omega)]
    simp
  · intro ha hal hrel
    have hi : a - 1 < xs.length := by omega
    have key := getD_envelope a r xs (a - 1) hi
    rw [key, if_pos (by omega), if_neg (by omega), mul_one]
    refine ⟨rfl, ?_⟩
    have ha0 : (0 : ℝ) < a := by exact_mod_cast ha
    have hc : ((a - 1 : ℕ) : ℝ) = (a : ℝ) - 1 := by
      rw [Nat.cast_sub ha, Nat.cast_one]
    rw [hc]
    have hkey : xs.getD (a - 1) 0 * (((a : ℝ) - 1) / a) - xs.getD (a - 1) 0 =
        -(xs.getD (a - 1) 0 / a) := by
      field_simp
      ring
    rw [hkey, abs_neg, abs_div, abs_of_pos ha0]
  · intro hr hl
    have hz : xs.length - 1 - (xs.length - 1) = 0 := by omega
    rw [getD_envelope a r xs (xs.length - 1) (by omega), hz,
      if_pos (by omega : 0 < min r xs.length)]
    simp
  · intro hr hrl hatt
    have hi : xs.length - r < xs.length := by omega
    rw [getD_envelope a r xs (xs.length - r) hi, if_neg (by omega)]
    have hz : xs.length - 1 - (xs.length - r) = r - 1 := by omega
    rw [hz, if_pos (by omega), mul_one]

/-- C8 witness: the envelope with attack 2 and release 2 on the
constant buffer [1,1,1,1] starts at 0, reaches 1/2 at index
`attack - 1 = 1`, and ends at 0. -/
theorem envelope_spec_witness :
    (envelope 2 2 [(1 : ℝ), 1, 1, 1]).getD 0 0 = 0 ∧
      (envelope 2 2 [(1 : ℝ), 1, 1, 1]).getD 1 0 = 1 / 2 ∧
      (envelope 2 2 [(1 : ℝ), 1, 1, 1]).getD 3 0 = 0 ∧
      (envelope 2 2 [(1 : ℝ), 1, 1, 1]).getD 2 0 = 1 / 2 := by
  have h := envelope_spec 2 2 [(1 : ℝ), 1, 1, 1]
  have hlen : ([(1 : ℝ), 1, 1, 1]).length = 4 := by simp
  refine ⟨h.2.2.1 (by norm_num) (by simp), ?_, ?_, ?_⟩
  · have h4 := (h.2.2.2.1 (by norm_num) (by simp) (by simp)).1
    rw [show (2 : ℕ) - 1 = 1 from rfl] at h4
    rw [h4]
    norm_num [List.getD]
  · have h5 := h.2.2.2.2.1 (by norm_num) (by simp)
    rw [hlen] at h5
    exact h5
  · have h6 := h.2.2.2.2.2 (by norm_num) (by simp) (by simp)
    rw [hlen] at h6
    rw [show (4 : ℕ) - 2 = 2 from rfl] at h6
    rw [h6]
    norm_num [List.getD]

/-- C3 counterexample: the oscillator buffer length is
`int(duration * sample_rate)` (truncation), not
`round(duration * sample_rate)`: at frequency 1, duration 0.7,
amplitude 0.5 and sample rate 1 the buffer is empty while the claimed
rounded length is 1. -/
theorem square_wave_length_not_round :
    (generate_square_wave 1 (7 / 10) (1 / 2) 1).length = 0 ∧
      round ((7 / 10 : ℝ) * ((1 : ℕ) : ℝ)) = 1 := by
  constructor
  · rw [length_generate_square_wave, numSamples, pyInt,
      if_pos (by norm_num : (0 : ℝ) ≤ 7 / 10 * ((1 : ℕ) : ℝ))]
    have : ⌊(7 / 10 : ℝ) * ((1 : ℕ) : ℝ)⌋ = 0 := by
      rw [Int.floor_eq_iff]
      push_cast
      norm_num
    rw [this]
    rfl
  · rw [round_eq]
    have : ⌊(7 / 10 : ℝ) * ((1 : ℕ) : ℝ) + 1 / 2⌋ = 1 := by
      rw [Int.floor_eq_iff]
      push_cast
      norm_num
    rw [this]

/-- C3 amended: for every frequency f > 0, duration d > 0, amplitude
a ∈ (0,1] and sample rate, `generate_square_wave` returns a buffer of
length exactly `int(d * sample_rate)`, i.e. the floor (truncation) of
`d * sample_rate`, not its rounding. -/
theorem square_wave_length (f d a : ℝ) (sr : ℕ)
    (hf : 0 < f) (hd : 0 < d) (ha : 0 < a) (ha1 : a ≤ 1) :
    (generate_square_wave f d a sr).length = (⌊d * (sr : ℝ)⌋).toNat := by
  rw [length_generate_square_wave, numSamples, pyInt,
    if_pos (by positivity : (0 : ℝ) ≤ d * (sr : ℝ))]

/-- C3 witness: at f = 1, d = 1, a = 1, rate 2 the theorem gives the
concrete length 2. -/
theorem square_wave_length_witness :
    (generate_square_wave 1 1 1 2).length = 2 := by
  rw [square_wave_length 1 1 1 2 one_pos one_pos one_pos le_rfl]
  have : ⌊(1 : ℝ) * ((2 : ℕ) : ℝ)⌋ = 2 := by
    rw [Int.floor_eq_iff]
    push_cast
    norm_num
  rw [this]
  rfl

/-- C4: for f > 0, d > 0, a ∈ (0,1], every sample of
`generate_square_wave` at index i equals `+a` when
`sin(2π·f·(i/sample_rate)) ≥ 0` and `-a` otherwise; in particular its
absolute value is exactly a. -/
theorem square_wave_sample_spec (f d a : ℝ) (sr : ℕ)
    (hf : 0 < f) (hd : 0 < d) (ha : 0 < a) (ha1 : a ≤ 1) (i : ℕ)
    (hi : i < (generate_square_wave f d a sr).length) :
    (0 ≤ Real.sin (2 * Real.pi * f * ((i : ℝ) / sr)) →
        (generate_square_wave f d a sr)[i] = a) ∧
      (Real.sin (2 * Real.pi * f * ((i : ℝ) / sr)) < 0 →
        (generate_square_wave f d a sr)[i] = -a) ∧
      |(generate_square_wave f d a sr)[i]| = a := by
  have hg := getElem_generate_square_wave f d a sr i hi
  refine ⟨fun hs => by rw [hg, if_pos hs],
    fun hs => by rw [hg, if_neg (not_le.mpr hs)], ?_⟩
  by_cases hs : 0 ≤ Real.sin (2 * Real.pi * f * ((i : ℝ) / sr))
  · rw [hg, if_pos hs, abs_of_pos ha]
  · rw [hg, if_neg hs, abs_neg, abs_of_pos ha]

/-- C4 witness: at f = d = a = 1, rate 1, index 0 the sine argument is
0 and the sample is +1. -/
theorem square_wave_sample_spec_witness :
    (generate_square_wave 1 1 1 1).getD 0 0 = 1 := by
  have hlen : 0 < (generate_square_wave 1 1 1 1).length := by
    rw [length_generate_square_wave, numSamples, pyInt,
      if_pos (by norm_num : (0 : ℝ) ≤ 1 * ((1 : ℕ) : ℝ))]
    have : ⌊(1 : ℝ) * ((1 : ℕ) : ℝ)⌋ = 1 := by
      rw [Int.floor_eq_iff]
      push_cast
      norm_num
    rw [this]
    norm_num
  rw [List.getD_eq_getElem _ _ hlen]
  exact (square_wave_sample_spec 1 1 1 1 one_pos one_pos one_pos le_rfl 0
    hlen).1 (by simp)

/-- Concrete evaluation of the 16-bit conversion at 0.7 (used by the C2
counterexample and witness): `int(0.7 * 32767) = int(22936.9) = 22936`. -/
theorem toInt16_at_seven_tenths : toInt16 (7 / 10) = 22936 := by
  rw [toInt16, pyInt, if_pos (by norm_num : (0 : ℝ) ≤ 7 / 10 * 32767)]
  rw [Int.floor_eq_iff]
  push_cast
  norm_num

/-- C2 counterexample: the WAV encoder converts 0.7 to 22936 by
truncation (`int(0.7 * 32767)` with `0.7 * 32767 = 22936.9`), while the
claimed round-to-nearest conversion would give 22937. -/
theorem toInt16_not_round :
    toInt16 (7 / 10) = 22936 ∧ round ((7 / 10 : ℝ) * 32767) = 22937 := by
  refine ⟨toInt16_at_seven_tenths, ?_⟩
  rw [round_eq, Int.floor_eq_iff]
  push_cast
  norm_num

/-- C2 amended: for every buffer of samples in [-1,1], `save_wave_file`
converts each sample to a signed 16-bit integer as `int(sample * 32767)`
— truncation toward zero, not round-to-nearest — and packs the results
(the truncated value is within 1 of `sample * 32767` and never exceeds
it in magnitude). -/
theorem encode_truncates (xs : List ℝ) (hb : ∀ s ∈ xs, -1 ≤ s ∧ s ≤ 1) :
    encodeSamples xs = some (xs.map toInt16) ∧
      ∀ s ∈ xs, |(toInt16 s : ℝ) - s * 32767| < 1 ∧
        |(toInt16 s : ℝ)| ≤ |s * 32767| := by
  constructor
  · rw [encodeSamples, if_pos]
    intro s hs
    rcases toInt16_bounds (hb s hs).1 (hb s hs).2 with ⟨h1, h2⟩
    exact ⟨by omega, h2⟩
  · intro s _
    exact pyInt_trunc (s * 32767)

/-- C2 witness: encoding the one-sample buffer [0.7] succeeds and
yields the truncated value 22936. -/
theorem encode_truncates_witness :
    encodeSamples [(7 : ℝ) / 10] = some [22936] := by
  rw [(encode_truncates [(7 : ℝ) / 10]
      (by intro s hs; simp only [List.mem_singleton] at hs; subst hs
          norm_num)).1]
  simp only [List.map_cons, List.map_nil, toInt16_at_seven_tenths]

/-- Per-sample range condition of the packer: `int(s * 32767)` fits in
a signed 16-bit integer exactly when `-32769/32767 < s < 32768/32767`
(a strictly wider window than [-1, 1]). -/
theorem toInt16_in_range_iff (s : ℝ) :
    (-32768 ≤ toInt16 s ∧ toInt16 s ≤ 32767) ↔
      (-(32769 / 32767) < s ∧ s < 32768 / 32767) := by
  rw [toInt16, pyInt]
  by_cases hx : 0 ≤ s * 32767
  · rw [if_pos hx]
    have hs0 : 0 ≤ s := by nlinarith
    constructor
    · rintro ⟨_, h2⟩
      refine ⟨lt_of_lt_of_le (by norm_num) hs0, ?_⟩
      have h3 : s * 32767 < ((32767 : ℤ) : ℝ) + 1 := Int.floor_le_iff.mp h2
      rw [lt_div_iff₀ (by norm_num : (0 : ℝ) < 32767)]
      push_cast at h3
      linarith
    · rintro ⟨_, h2⟩
      have h3 : (0 : ℤ) ≤ ⌊s * 32767⌋ := Int.le_floor.mpr (by exact_mod_cast hx)
      refine ⟨by omega, Int.floor_le_iff.mpr ?_⟩
      rw [lt_div_iff₀ (by norm_num : (0 : ℝ) < 32767)] at h2
      push_cast
      linarith
  · rw [if_neg hx]
    push_neg at hx
    have hs0 : s < 0 := by nlinarith
    constructor
    · rintro ⟨h1, _⟩
      refine ⟨?_, lt_of_lt_of_le hs0 (by norm_num)⟩
      have h3 : ((-32769 : ℤ) : ℝ) < s * 32767 :=
        Int.lt_ceil.mp (by omega)
      push_cast at h3
      linarith
    · rintro ⟨h1, _⟩
      have h3 : ((-32769 : ℤ) : ℝ) < s * 32767 := by
        push_cast
        linarith
      have h4 : (-32769 : ℤ) < ⌈s * 32767⌉ := Int.lt_ceil.mpr h3
      have h5 : ⌈s * 32767⌉ ≤ (0 : ℤ) := Int.ceil_le.mpr (by exact_mod_cast hx.le)
      exact ⟨by omega, by omega⟩

/-- C6 counterexample: the sample `65535/65534 ≈ 1.0000153` lies outside
[-1, 1], yet `save_wave_file` does not raise: `int(s * 32767) =
int(32767.5) = 32767` still fits in 16 bits, so the encoder silently
writes it. -/
theorem encode_out_of_range_no_error :
    (1 : ℝ) < 65535 / 65534 ∧
      encodeSamples [(65535 : ℝ) / 65534] = some [32767] := by
  have hv : toInt16 ((65535 : ℝ) / 65534) = 32767 := by
    rw [toInt16, pyInt, if_pos (by norm_num)]
    have harg : (65535 : ℝ) / 65534 * 32767 = 65535 / 2 := by norm_num
    rw [harg, Int.floor_eq_iff]
    push_cast
    norm_num
  refine ⟨by norm_num, ?_⟩
  rw [encodeSamples, if_pos]
  · simp only [List.map_cons, List.map_nil, hv]
  · intro s hs
    simp only [List.mem_singleton] at hs
    subst hs
    rw [hv]
    norm_num

/-- C6 amended: `save_wave_file` raises an error iff some sample `s`
satisfies `s ≥ 32768/32767` or `s ≤ -32769/32767`; samples merely
outside [-1, 1] but inside this wider window are silently truncated and
encoded, so the encoder does not fail on every out-of-range sample. -/
theorem encode_fails_iff (xs : List ℝ) :
    encodeSamples xs = none ↔
      ∃ s ∈ xs, (32768 : ℝ) / 32767 ≤ s ∨ s ≤ -(32769 / 32767) := by
  rw [encodeSamples]
  by_cases hall : ∀ s ∈ xs, -32768 ≤ toInt16 s ∧ toInt16 s ≤ 32767
  · rw [if_pos hall]
    constructor
    · intro h
      exact absurd h (by simp)
    · rintro ⟨s, hs, hcase⟩
      have hr := (toInt16_in_range_iff s).mp (hall s hs)
      rcases hcase with h | h
      · linarith [hr.2]
      · linarith [hr.1]
  · rw [if_neg hall]
    constructor
    · intro _
      push_neg at hall
      rcases hall with ⟨s, hs, hnot⟩
      refine ⟨s, hs, ?_⟩
      have hnot2 : ¬(-32768 ≤ toInt16 s ∧ toInt16 s ≤ 32767) := fun hc =>
        absurd hc.2 (not_le.mpr (hnot hc.1))
      rw [toInt16_in_range_iff] at hnot2
      rcases not_and_or.mp hnot2 with h | h
      · exact Or.inr (by push_neg at h; linarith)
      · exact Or.inl (by push_neg at h; linarith)
    · intro _
      rfl

/-- C5: normalization computes `peak = max(|min|, |max|)`; for every
non-silent buffer it scales every sample by `headroom / peak` so the
peak after normalization is exactly the headroom, and a silent buffer
is left unchanged. -/
theorem normalize_spec (h : ℝ) (l : List ℝ) (hh : 0 < h) (hne : l ≠ []) :
    (0 < peak l →
        normalize h l = l.map (fun s => s * (h / peak l)) ∧
          peak (normalize h l) = h) ∧
      (peak l = 0 → normalize h l = l) := by
  refine ⟨fun hp => ⟨normalize_of_peak_pos hp, peak_normalize hh.le hp⟩,
    fun hp => normalize_of_silent ?_⟩
  rw [hp]
  exact lt_irrefl 0

/-- C5 witness: normalizing the non-silent buffer [0.5, -0.25] with
headroom 0.9 yields a buffer of peak exactly 0.9. -/
theorem normalize_spec_witness :
    peak (normalize 0.9 [(1 : ℝ) / 2, -(1 / 4)]) = 0.9 := by
  have hmem : (1 : ℝ) / 2 ∈ [(1 : ℝ) / 2, -(1 / 4)] := by simp
  have hp : 0 < peak [(1 : ℝ) / 2, -(1 / 4)] :=
    lt_of_lt_of_le (by norm_num : (0 : ℝ) < |(1 : ℝ) / 2|)
      (abs_le_peak_of_mem hmem)
  exact ((normalize_spec 0.9 [(1 : ℝ) / 2, -(1 / 4)] (by norm_num)
    (by simp)).1 hp).2

/-- Helper: `int(0.06 * 44100) = 2646` samples per arpeggio note. -/
theorem numSamples_arp : numSamples 0.06 44100 = 2646 :=
  numSamples_eq 0.06 44100 2646 (by norm_num) (by push_cast; norm_num)

/-- Helper: `int(0.12 * 44100) = 5292` samples for the final chord. -/
theorem numSamples_chord : numSamples 0.12 44100 = 5292 :=
  numSamples_eq 0.12 44100 5292 (by norm_num) (by push_cast; norm_num)

theorem length_tetris_arpeggio : tetrisArpeggio.length = 23814 := by
  simp [tetrisArpeggio, length_generate_square_wave, numSamples_arp]

theorem length_tetris_chord : tetrisChord.length = 5292 := by
  simp [tetrisChord, length_generate_square_wave, numSamples_chord]

theorem peak_tetris_raw_pos : 0 < peak (tetrisArpeggio ++ tetrisChord) := by
  have hl : 0 < (generate_square_wave 523.25 0.06 0.3 44100).length := by
    rw [length_generate_square_wave, numSamples_arp]
    norm_num
  have hmem1 : (0.3 : ℝ) ∈ generate_square_wave 523.25 0.06 0.3 44100 := by
    have hm := List.getElem_mem hl
    rwa [getElem_zero_square_wave 523.25 0.06 0.3 44100 hl] at hm
  have hmem : (0.3 : ℝ) ∈ tetrisArpeggio ++ tetrisChord := by
    simp only [tetrisArpeggio, List.mem_append]
    exact Or.inl (Or.inl (Or.inl (Or.inl (Or.inl (Or.inl (Or.inl
      (Or.inl (Or.inl hmem1))))))))
  exact lt_of_lt_of_le (by norm_num : (0 : ℝ) < |(0.3 : ℝ)|)
    (abs_le_peak_of_mem hmem)

/-- C1 counterexample: the tetris chord asset holds 29106 samples —
nine 0.06 s arpeggio notes (the three arpeggiated chords each
contribute three notes) plus the 0.12 s final chord, i.e. 0.66 s at the
oscillator rate 44100 — not the 13230 samples that the claimed total of
`3*0.06 + 0.12 = 0.30` seconds would give. -/
theorem tetris_sound_length_not_030 :
    create_tetris_sound.length = 29106 ∧ numSamples 0.30 44100 = 13230 := by
  constructor
  · rw [create_tetris_sound, length_normalize, List.length_append,
      length_tetris_arpeggio, length_tetris_chord]
  · exact numSamples_eq 0.30 44100 13230 (by norm_num) (by push_cast; norm_num)

/-- C1 amended: the tetris chord asset holds
`9 * int(0.06*44100) + int(0.12*44100) = 29106` samples — 0.66 s at
the oscillator rate 44100, since all three arpeggiated chords play
their three notes in sequence before the final chord — its final chord
sums three voices whose per-note amplitude is pre-divided by the voice
count (`0.4/3` per voice), and the returned buffer is normalized so its
peak magnitude equals 0.9. -/
theorem tetris_sound_spec :
    create_tetris_sound.length = 29106 ∧
      peak create_tetris_sound = 0.9 ∧
      ∀ i, (h : i < tetrisChord.length) →
        tetrisChord[i] =
          squareSample 1046.50 (0.4 / 3) 44100 i +
            squareSample 1318.51 (0.4 / 3) 44100 i +
            squareSample 1567.98 (0.4 / 3) 44100 i := by
  refine ⟨?_, ?_, ?_⟩
  · rw [create_tetris_sound, length_normalize, List.length_append,
      length_tetris_arpeggio, length_tetris_chord]
  · rw [create_tetris_sound]
    exact peak_normalize (by norm_num) peak_tetris_raw_pos
  · intro i h
    simp only [tetrisChord, List.getElem_zipWith]
    rw [getElem_square_wave_eq_sample, getElem_square_wave_eq_sample,
      getElem_square_wave_eq_sample]

/-- C1 witness: the first mixed sample of the final chord is
`0.4/3 + 0.4/3 + 0.4/3 = 0.4` (each voice starts at `+0.4/3` because
`sin 0 = 0 ≥ 0`). -/
theorem tetris_sound_spec_witness : tetrisChord.getD 0 0 = 0.4 := by
  have hlen : 0 < tetrisChord.length := by
    rw [length_tetris_chord]
    norm_num
  rw [List.getD_eq_getElem _ _ hlen, tetris_sound_spec.2.2 0 hlen,
    squareSample_zero, squareSample_zero, squareSample_zero]
  norm_num

theorem in_range_of_abs_le_one {s : ℝ} (h : |s| ≤ 1) : -1 ≤ s ∧ s ≤ 1 :=
  abs_le.mp h

theorem abs_of_mem_square_wave {f d a : ℝ} {sr : ℕ} {s : ℝ}
    (h : s ∈ generate_square_wave f d a sr) : |s| = |a| := by
  rcases mem_generate_square_wave h with rfl | rfl
  · rfl
  · exact abs_neg a

/-- C10: every sound-generating function returns a buffer whose samples
all lie within [-1, 1], so the 16-bit conversion in `save_wave_file`
never sees an out-of-range sample for any asset `main` writes. -/
theorem all_sounds_in_range :
    (∀ s ∈ create_move_sound, -1 ≤ s ∧ s ≤ 1) ∧
      (∀ s ∈ create_rotate_sound, -1 ≤ s ∧ s ≤ 1) ∧
      (∀ s ∈ create_drop_sound, -1 ≤ s ∧ s ≤ 1) ∧
      (∀ s ∈ create_clear_sound, -1 ≤ s ∧ s ≤ 1) ∧
      (∀ s ∈ create_tetris_sound, -1 ≤ s ∧ s ≤ 1) ∧
      (∀ s ∈ create_game_over_sound, -1 ≤ s ∧ s ≤ 1) ∧
      (∀ s ∈ create_background_music, -1 ≤ s ∧ s ≤ 1) := by
  refine ⟨?_, ?_, ?_, ?_, ?_, ?_, ?_⟩
  · intro s hs
    simp only [create_move_sound, List.mem_append] at hs
    have h : s = (0.3 : ℝ) ∨ s = -(0.3 : ℝ) := by
      rcases hs with (h | h) | h <;> exact mem_generate_square_wave h
    rcases h with rfl | rfl <;> constructor <;> norm_num
  · intro s hs
    simp only [create_rotate_sound, List.mem_append] at hs
    have h : s = (0.3 : ℝ) ∨ s = -(0.3 : ℝ) := by
      rcases hs with ((h | h) | h) | h <;> exact mem_generate_square_wave h
    rcases h with rfl | rfl <;> constructor <;> norm_num
  · intro s hs
    simp only [create_drop_sound, List.mem_map, List.mem_range] at hs
    obtain ⟨i, hi, rfl⟩ := hs
    apply in_range_of_abs_le_one
    have hn : 0 < numSamples 0.1 32768 := lt_of_le_of_lt (Nat.zero_le i) hi
    have h2 : |1 - (i : ℝ) / (numSamples 0.1 32768 : ℕ)| ≤ 1 := by
      rw [abs_le]
      constructor
      · have hlt : (i : ℝ) / (numSamples 0.1 32768 : ℕ) < 1 := by
          rw [div_lt_one (by exact_mod_cast hn)]
          exact_mod_cast hi
        linarith
      · have hge : 0 ≤ (i : ℝ) / (numSamples 0.1 32768 : ℕ) := by positivity
        linarith
    rw [abs_mul]
    have h1 : |if 0 ≤ Real.sin (2 * Real.pi *
        (880 * (1 - ((i : ℝ) / 32768) / 0.1)) * ((i : ℝ) / 32768)) then
          (0.4 : ℝ) else -0.4| = 0.4 := by
      split_ifs
      · rw [abs_of_pos (by norm_num : (0 : ℝ) < 0.4)]
      · rw [abs_neg, abs_of_pos (by norm_num : (0 : ℝ) < 0.4)]
    rw [h1]
    nlinarith [abs_nonneg (1 - (i : ℝ) / (numSamples 0.1 32768 : ℕ))]
  · intro s hs
    simp only [create_clear_sound, List.mem_map, List.mem_range] at hs
    obtain ⟨i, _, rfl⟩ := hs
    split_ifs <;> constructor <;> norm_num
  · intro s hs
    rw [create_tetris_sound] at hs
    have := abs_le_of_mem_normalize (by norm_num : (0 : ℝ) ≤ 0.9) hs
    apply in_range_of_abs_le_one
    linarith
  · intro s hs
    simp only [create_game_over_sound, List.mem_append] at hs
    have h : s = (0.4 : ℝ) ∨ s = -(0.4 : ℝ) := by
      rcases hs with (((h | h) | h) | h) | h <;> exact mem_generate_square_wave h
    rcases h with rfl | rfl <;> constructor <;> norm_num
  · intro s hs
    rw [create_background_music] at hs
    rcases List.mem_append.mp hs with h | h <;>
      · have := abs_le_of_mem_normalize (by norm_num : (0 : ℝ) ≤ 0.95) h
        apply in_range_of_abs_le_one
        linarith

/-- C10 witness: the first sample of the move sound, 0.3, is in range. -/
theorem all_sounds_in_range_witness : -1 ≤ (0.3 : ℝ) ∧ (0.3 : ℝ) ≤ 1 := by
  have hl : 0 < (generate_square_wave 440 0.05 0.3 44100).length := by
    rw [length_generate_square_wave,
      numSamples_eq 0.05 44100 2205 (by norm_num) (by push_cast; norm_num)]
    norm_num
  have hmem1 : (0.3 : ℝ) ∈ generate_square_wave 440 0.05 0.3 44100 := by
    have hm := List.getElem_mem hl
    rwa [getElem_zero_square_wave 440 0.05 0.3 44100 hl] at hm
  have hmem : (0.3 : ℝ) ∈ create_move_sound := by
    simp only [create_move_sound, List.mem_append]
    exact Or.inl (Or.inl hmem1)
  exact all_sounds_in_range.1 0.3 hmem

/-- C9: for every canvas size N, `create_tetris_icon` uses a 4×4 grid of
block size `N/4` (integer division) with per-block padding
`block_size/8`, and for each drawn block fills the padded rectangle with
the block color, then draws the 2-pixel highlight strokes (each channel
`+40` clamped to 255) along the top and left edges and the 2-pixel
shadow strokes (each channel `-40` clamped to 0) along the bottom and
right edges — i.e. the emitted command sequence is exactly the one the
spec describes. -/
theorem icon_matches_spec (size : ℕ) :
    create_tetris_icon size = specTetrisIcon size := by
  rfl

/-- C7 (code bug): `main` writes every WAV header at the
`save_wave_file` default rate of 32768 Hz, but the move sound (like
rotate, tetris, game_over and background) was synthesized at 44100 Hz,
so the declared rate does not match the synthesis rate. -/
theorem header_rate_mismatch :
    headerSampleRate SoundAsset.move = 32768 ∧
      synthesisSampleRate SoundAsset.move = 44100 ∧
      headerSampleRate SoundAsset.background ≠
        synthesisSampleRate SoundAsset.background ∧
      headerSampleRate SoundAsset.drop = synthesisSampleRate SoundAsset.drop := by
  refine ⟨rfl, rfl, by decide, rfl⟩

end Tetris
